import Mathlib

/-!
Verification development for the adaptive form-filling engine of the
naukri_automation repository.  The definitions below are a shallow embedding
of the page-resident engine `content.js` (field discovery, memory-backed fill
pass, option matcher, submit controller, Naukri panel loop) and of the memory
management operations of the extension popup `popup.js` (import/export of
the question/answer memory, resume and cover-letter fan-out).
-/

namespace NaukriAuto

/-- Decidable equality on `Except`, used to evaluate the engine's fallible
operations on concrete inputs. -/
def exceptDecEq {ε α : Type} [DecidableEq ε] [DecidableEq α] :
    DecidableEq (Except ε α)
  | .error e, .error e' =>
    if h : e = e' then .isTrue (by rw [h])
    else .isFalse (by intro hc; cases hc; exact h rfl)
  | .ok a, .ok a' =>
    if h : a = a' then .isTrue (by rw [h])
    else .isFalse (by intro hc; cases hc; exact h rfl)
  | .error _, .ok _ => .isFalse (by intro hc; cases hc)
  | .ok _, .error _ => .isFalse (by intro hc; cases hc)

instance {ε α : Type} [DecidableEq ε] [DecidableEq α] : DecidableEq (Except ε α) :=
  exceptDecEq

/-!
String helpers mirroring the JavaScript string primitives used by the source
(`toLowerCase`, `trim`, `includes`, and the `a || b` fallback idiom).
Characters are handled at the code-point level; `Char.toLower` models
JavaScript `toLowerCase` on the alphabet actually used by the engine.
-/

/-- Model of JavaScript `s.toLowerCase()`. -/
def jsToLower (s : String) : String := ⟨s.data.map Char.toLower⟩

/-- Helper for substring search: `charsContain hay needle` is true when
`needle` occurs contiguously inside `hay`. -/
def charsContain (hay needle : List Char) : Bool :=
  needle.isPrefixOf hay ||
    (match hay with
     | [] => false
     | _ :: t => charsContain t needle)

/-- Model of JavaScript `s.includes(pat)`. -/
def jsIncludes (s pat : String) : Bool := charsContain s.data pat.data

/-- Model of JavaScript `s.trim()`. -/
def jsTrim (s : String) : String :=
  ⟨((s.data.dropWhile Char.isWhitespace).reverse.dropWhile Char.isWhitespace).reverse⟩

/-- Model of the JavaScript `a || b` fallback on strings (`""` is falsy). -/
def jsOr (a b : String) : String := if a = "" then b else a

/-- JavaScript truthiness of an optional string such as a `prompt` result:
`null` (cancelled) and the empty string are both falsy. -/
def strTruthy : Option String → Option String
  | some s => if s = "" then none else some s
  | none => none

/-!
The Memory Store `qaMemory`: a JavaScript object mapping normalized question
keys to answer strings.  It is modeled as an insertion-ordered association
list with JavaScript object-assignment semantics: updating an existing key
keeps its position, a fresh key is appended at the end.
-/

/-- The `qaMemory` mapping. -/
abbrev Memory := List (String × String)

/-- Reading `m[k]` from a memory object (`none` means the key is absent). -/
def memLookup : Memory → String → Option String
  | [], _ => none
  | (k', v) :: rest, k => if k' = k then some v else memLookup rest k

/-- JavaScript `m[k] = v` on the memory object. -/
def memInsert : Memory → String → String → Memory
  | [], k, v => [(k, v)]
  | (k', v') :: rest, k, v =>
    if k' = k then (k', v) :: rest else (k', v') :: memInsert rest k v

/-- Truthy read `if (m[k]) ...` used by the engine: an absent key and a key
stored with the empty string are both treated as "no answer". -/
def memTruthy (m : Memory) (k : String) : Option String :=
  match memLookup m k with
  | some v => if v = "" then none else some v
  | none => none

/-- The keys of a memory object, in insertion order. -/
def memKeys (m : Memory) : List String := m.map (·.1)

/-!
Live form controls.  An `Elem` is the projection of one DOM element to the
attributes that `content.js` reads or writes: geometry and computed style
(used by the visibility filter of `findAllFields`), the control kind, the
label association (`labelText` is the text of the element's programmatically
associated label, covering both the `el.labels[0]` and the
`label[for=id]` lookup of `findAllFields`), the live `value`, the option
list of a `select` (display text and value per option), and the attached
file name (`files`, `""` when no file is attached).  `hostRejects` models a
host page on which programmatic mutation of the element throws (sites may
block synthetic file assignment, or install a throwing value setter).
-/

/-- One live form control as seen by the engine. -/
structure Elem where
  tag : String
  etype : String
  name : String
  id : String
  labelText : String
  placeholder : String
  required : Bool
  value : String
  options : List (String × String)
  files : String
  width : Nat
  height : Nat
  display : String
  visibility : String
  hostRejects : Bool
deriving DecidableEq, Inhabited

/-- The visibility and control-kind filter of `findAllFields`: positive
rendered box, not display-none or visibility-hidden, and not a
hidden/submit/button/image control. -/
def isDiscoverable (el : Elem) : Bool :=
  decide (0 < el.width) && decide (0 < el.height) &&
  !(el.display == "none") && !(el.visibility == "hidden") &&
  !(el.etype == "hidden") && !(el.etype == "submit") &&
  !(el.etype == "button") && !(el.etype == "image")

/-- `findAllFields`, returned as the indices (in document order) of the
elements whose descriptors the function collects. -/
def findAllFields (page : List Elem) : List Nat :=
  (List.range page.length).filter (fun i => isDiscoverable (page.getD i default))

/-- The normalized question key computed in `fillFormWithMemory`:
`(field.label || field.placeholder || field.name || '').toLowerCase().trim()`. -/
def fieldQuestion (el : Elem) : String :=
  jsTrim (jsToLower (jsOr el.labelText (jsOr el.placeholder el.name)))

/-- The display text handed to `prompt` for a required field:
`field.label || field.placeholder || field.name` (the decorative prefix of
the prompt message is elided). -/
def promptLabel (el : Elem) : String := jsOr el.labelText (jsOr el.placeholder el.name)

/-!
The Option Matcher `selectBestOption`.  The source first scans all options
for a case-insensitive exact match of the display text against the answer;
only if that loop finds nothing does it scan again for a case-insensitive
substring match in either direction.  On a match it assigns the matched
option's value to the control and dispatches a `change` event.
-/

/-- The exact-match test of the first loop of `selectBestOption`. -/
def optExact (answer : String) (o : String × String) : Bool :=
  jsToLower o.1 == jsToLower answer

/-- The partial-match test of the second loop of `selectBestOption`:
option text contains answer, or answer contains option text. -/
def optSubstr (answer : String) (o : String × String) : Bool :=
  jsIncludes (jsToLower o.1) (jsToLower answer) ||
  jsIncludes (jsToLower answer) (jsToLower o.1)

/-- The option picked by `selectBestOption`: the whole exact-match loop runs
before the partial-match loop, and within each loop the first hit wins. -/
def findMatchingOption (options : List (String × String)) (answer : String) :
    Option (String × String) :=
  match options.find? (optExact answer) with
  | some o => some o
  | none => options.find? (optSubstr answer)

/-- Model of `selectBestOption`: on a match the control's value is assigned
(the host may reject the mutation, which throws) and a `change` event is
dispatched; the returned list records the dispatched events.  Without a
match the element is returned unchanged and no event is dispatched. -/
def selectBestOption (el : Elem) (answer : String) :
    Except Unit (Bool × Elem × List String) :=
  match findMatchingOption el.options answer with
  | some o =>
    if el.hostRejects then .error ()
    else .ok (true, { el with value := o.2 }, ["change"])
  | none => .ok (false, el, [])

/-!
The memory-backed fill pass `fillFormWithMemory`.  The pass reads the stored
resume and cover-letter assets and the `qaMemory` mapping, collects the
discoverable fields, and processes them one by one.  `fillCore` is the body
of the per-field loop; `fillStepAt` applies it to the live element at one
index; `runFill` folds it over all discovered indices.  A thrown JavaScript
exception aborts the remaining iterations (`threw`), which is how an
uncaught host rejection propagates out of the pass.
-/

/-- A stored file asset (resume or cover letter): name, MIME type and size.
The base64 payload plays no role in the properties below and is elided. -/
structure FileAsset where
  name : String
  mime : String
  size : Nat
deriving DecidableEq, Inhabited

/-- The environment of one fill pass: the stored assets and the synchronous
human prompt (`none` models a cancelled or empty prompt). -/
structure FillCtx where
  resume : Option FileAsset
  coverLetter : Option FileAsset
  ask : String → Option String

/-- Effect of processing one field: the replacement element (`none` when the
element is left untouched), the updated memory, the increments of the two
counters, and whether an uncaught exception was thrown. -/
structure StepOut where
  el : Option Elem
  memory : Memory
  dFilled : Nat
  dAsked : Nat
  threw : Bool

/-- Body of the per-field loop of `fillFormWithMemory`, transcribed branch by
branch from the source: skip of already-filled fields, skip of unlabeled
fields, the file-upload branch (whose failures are caught and turned into an
alert), the resume/CV and cover-letter text branches, the memory branch
(with Option Matcher delegation for selects), and the required-field prompt
branch, which persists a freshly supplied answer.  Text and select value
assignments are not guarded by any try/catch in the source, so a host
rejection there sets `threw`. -/
def fillCore (ctx : FillCtx) (mem : Memory) (el : Elem) : StepOut :=
  if el.value != "" then ⟨none, mem, 0, 0, false⟩ else
  let question := fieldQuestion el
  if question == "" then ⟨none, mem, 0, 0, false⟩ else
  if el.etype == "file" then
    let isResume := jsIncludes question "resume" || jsIncludes question "cv"
    let isCoverLetter := jsIncludes question "cover" || jsIncludes question "letter"
    match (if isResume then ctx.resume else none) with
    | some asset =>
      if el.hostRejects then ⟨none, mem, 0, 0, false⟩
      else ⟨some { el with files := asset.name }, mem, 1, 0, false⟩
    | none =>
      match (if isCoverLetter then ctx.coverLetter else none) with
      | some asset =>
        if el.hostRejects then ⟨none, mem, 0, 0, false⟩
        else ⟨some { el with files := asset.name }, mem, 1, 0, false⟩
      | none => ⟨none, mem, 0, 0, false⟩
  else
  match (if (jsIncludes question "resume" || jsIncludes question "cv") && ctx.resume.isSome
         then memTruthy mem question else none) with
  | some v =>
    if el.hostRejects then ⟨none, mem, 0, 0, true⟩
    else ⟨some { el with value := v }, mem, 1, 0, false⟩
  | none =>
  match (if (jsIncludes question "cover" && jsIncludes question "letter") && ctx.coverLetter.isSome
         then memTruthy mem question else none) with
  | some v =>
    if el.hostRejects then ⟨none, mem, 0, 0, true⟩
    else ⟨some { el with value := v }, mem, 1, 0, false⟩
  | none =>
  match memTruthy mem question with
  | some answer =>
    if el.tag == "select" then
      match selectBestOption el answer with
      | .error _ => ⟨none, mem, 0, 0, true⟩
      | .ok (matched, el', _) =>
        if matched then ⟨some el', mem, 1, 0, false⟩ else ⟨none, mem, 0, 0, false⟩
    else
      if el.hostRejects then ⟨none, mem, 0, 0, true⟩
      else ⟨some { el with value := answer }, mem, 1, 0, false⟩
  | none =>
    if el.required then
      match strTruthy (ctx.ask (promptLabel el)) with
      | some answer =>
        if el.tag == "select" then
          match selectBestOption el answer with
          | .error _ => ⟨none, mem, 0, 0, true⟩
          | .ok (_, el', _) =>
            ⟨some el', memInsert mem question answer, 1, 1, false⟩
        else
          if el.hostRejects then ⟨none, mem, 0, 0, true⟩
          else ⟨some { el with value := answer }, memInsert mem question answer, 1, 1, false⟩
      | none => ⟨none, mem, 0, 0, false⟩
    else ⟨none, mem, 0, 0, false⟩

/-- The running state of one fill pass over the live page. -/
structure FillState where
  page : List Elem
  memory : Memory
  filledCount : Nat
  askedCount : Nat
  threw : Bool
deriving DecidableEq

/-- One iteration of the field loop, applied to the live element at `idx`.
Once an exception has been thrown the remaining iterations never run. -/
def fillStepAt (ctx : FillCtx) (st : FillState) (idx : Nat) : FillState :=
  if st.threw then st else
  let out := fillCore ctx st.memory (st.page.getD idx default)
  { page := match out.el with
      | some e => st.page.set idx e
      | none => st.page
    memory := out.memory
    filledCount := st.filledCount + out.dFilled
    askedCount := st.askedCount + out.dAsked
    threw := out.threw }

/-- The initial state of a fill pass. -/
def initState (page : List Elem) (mem : Memory) : FillState :=
  ⟨page, mem, 0, 0, false⟩

/-- The whole field loop of `fillFormWithMemory`. -/
def runFill (ctx : FillCtx) (page : List Elem) (mem : Memory) : FillState :=
  (findAllFields page).foldl (fillStepAt ctx) (initState page mem)

/-- The structured result of `fillForm`. -/
structure FillResult where
  success : Bool
  filledCount : Nat
  askedCount : Nat
  totalFields : Nat
deriving DecidableEq

/-- `fillFormWithMemory`: runs the field loop and returns the aggregate
result together with the final page and memory.  A JavaScript exception
rejects the promise, modeled as `Except.error`. -/
def fillFormWithMemory (ctx : FillCtx) (page : List Elem) (mem : Memory) :
    Except Unit (FillResult × List Elem × Memory) :=
  let st := runFill ctx page mem
  if st.threw then .error ()
  else .ok (⟨true, st.filledCount, st.askedCount, (findAllFields page).length⟩,
            st.page, st.memory)

/-!
The Naukri Panel State Machine `handleNaukriSidebar`.  Each iteration
re-scans the page: `findNaukriSidebar` returns whether a sidebar-shaped
container was found together with its question lines and its empty visible
inputs, and the two follow-up actions `fillNaukriInput` and
`clickNaukriSaveButton` each report success.  Because the page may change
between iterations, the whole per-iteration observation is indexed by the
iteration number.
-/

/-- Result of one `findNaukriSidebar` scan: whether a sidebar container was
found, the question lines extracted inside it, and the (types of the) empty
visible inputs found inside it. -/
structure SidebarData where
  found : Bool
  questions : List String
  inputs : List String
deriving DecidableEq, Inhabited

/-- Per-iteration observation of the page by the panel loop: the sidebar
scan result, the success of `fillNaukriInput`, and the success of
`clickNaukriSaveButton`. -/
abbrev PanelEnv := Nat → SidebarData × Bool × Bool

/-- Exit causes of the panel loop, one per `break` of the source plus the
iteration cap. -/
inductive PanelExit where
  | noSidebar
  | noQuestionOrInput
  | userCancelled
  | fillFailed
  | noSaveButton
  | maxAttemptsReached
deriving DecidableEq

/-- The `while (attempt < maxAttempts)` loop of `handleNaukriSidebar`,
written with the remaining attempts as fuel.  Arguments: remaining fuel,
iterations already performed, current memory.  Returns the exit cause, the
total number of iterations performed, and the final memory. -/
def sidebarLoop (env : PanelEnv) (ask : String → Option String) :
    Nat → Nat → Memory → PanelExit × Nat × Memory
  | 0, iters, mem => (.maxAttemptsReached, iters, mem)
  | fuel + 1, iters, mem =>
    let att := iters + 1
    let (sd, fillOk, saveOk) := env iters
    if !sd.found then (.noSidebar, att, mem)
    else if sd.questions.isEmpty || sd.inputs.isEmpty then (.noQuestionOrInput, att, mem)
    else
      let question := sd.questions.headD ""
      let questionLower := jsTrim (jsToLower question)
      match memTruthy mem questionLower with
      | some _ =>
        if !fillOk then (.fillFailed, att, mem)
        else if !saveOk then (.noSaveButton, att, mem)
        else sidebarLoop env ask fuel att mem
      | none =>
        match strTruthy (ask question) with
        | none => (.userCancelled, att, mem)
        | some answer =>
          let mem' := memInsert mem questionLower answer
          if !fillOk then (.fillFailed, att, mem')
          else if !saveOk then (.noSaveButton, att, mem')
          else sidebarLoop env ask fuel att mem'

/-- The iteration cap `maxAttempts = 20` of `handleNaukriSidebar`. -/
def maxAttempts : Nat := 20

/-- `handleNaukriSidebar`: the bounded panel loop started with the full
iteration budget. -/
def handleNaukriSidebar (env : PanelEnv) (ask : String → Option String)
    (mem : Memory) : PanelExit × Nat × Memory :=
  sidebarLoop env ask maxAttempts 0 mem

/-!
The submit controller `submitForm`.  It scans the page's buttons for the
first visible, enabled control whose text contains a submit/apply/send
token, clicks it, waits a settle delay, and then classifies the outcome from
the page's visible text.
-/

/-- A clickable control as read by `submitForm`: inner text, `value`
attribute, visibility (`offsetParent !== null`) and disabled flag. -/
structure Btn where
  innerText : String
  value : String
  visible : Bool
  disabled : Bool
deriving DecidableEq, Inhabited

/-- The effective text of a button: `(btn.innerText || btn.value || '')`,
lower-cased. -/
def btnText (b : Btn) : String := jsToLower (jsOr b.innerText b.value)

/-- The candidate test of `submitForm`: text contains a submit/apply/send
token, visible, not disabled. -/
def isSubmitCandidate (b : Btn) : Bool :=
  (jsIncludes (btnText b) "submit" || jsIncludes (btnText b) "apply" ||
   jsIncludes (btnText b) "send") && b.visible && !b.disabled

/-- The completion-token check of `submitForm` on the page's visible text
after the settle delay. -/
def hasCompletionText (body : String) : Bool :=
  jsIncludes (jsToLower body) "thank" || jsIncludes (jsToLower body) "success" ||
  jsIncludes (jsToLower body) "submitted" || jsIncludes (jsToLower body) "received"

/-- The structured result of `submitForm`. -/
structure SubmitResult where
  success : Bool
  clicked : Bool
deriving DecidableEq

/-- `submitForm`: clicks the first submit candidate (the returned option
records which button was activated), then classifies the page text
`bodyAfterClick` observed after the settle delay; with no candidate nothing
is clicked and no exception is raised. -/
def submitForm (buttons : List Btn) (bodyAfterClick : String) :
    SubmitResult × Option Btn :=
  match buttons.find? isSubmitCandidate with
  | some b => (⟨hasCompletionText bodyAfterClick, true⟩, some b)
  | none => (⟨false, false⟩, none)

/-!
Memory management operations of the popup: import/export of `qaMemory` and
the file-role fan-out performed when a new resume or cover letter is
uploaded.
-/

/-- The pre-declared resume-variant key list of `uploadResume`. -/
def resumeKeys : List String :=
  ["resume", "resume *", "cv", "cv *", "upload resume", "upload cv",
   "attach resume", "attach cv", "resume/cv", "resume / cv", "resumecv",
   "resume file", "cv file", "resume (pdf)", "cv (pdf)", "resume *",
   "cv *", "attach resume *", "attach cv *"]

/-- The pre-declared cover-letter-variant key list of `uploadCoverLetter`. -/
def coverLetterKeys : List String :=
  ["cover letter", "cover letter *", "coverletter", "upload cover letter",
   "attach cover letter", "cover letter file", "cover letter (pdf)",
   "attach cover letter *"]

/-- `setMany`: assign the same value to every key of a role's key list
(`keys.forEach(key => qaMemory[key] = value)`). -/
def setMany (mem : Memory) (keys : List String) (value : String) : Memory :=
  keys.foldl (fun m k => memInsert m k value) mem

/-- `uploadResume`: store the new asset in the resume slot and fan its file
name out to every resume-variant key. -/
def uploadResume (mem : Memory) (file : FileAsset) : FileAsset × Memory :=
  (file, setMany mem resumeKeys file.name)

/-- `uploadCoverLetter`: store the new asset in the cover-letter slot and
fan its file name out to every cover-letter-variant key. -/
def uploadCoverLetter (mem : Memory) (file : FileAsset) : FileAsset × Memory :=
  (file, setMany mem coverLetterKeys file.name)

/-- `exportMemory` serializes the whole `qaMemory` mapping; the exported
mapping is the store itself. -/
def exportMemory (mem : Memory) : Memory := mem

/-- `importMemory`: shallow merge `{...qaMemory, ...imported}` of the
imported mapping over the existing store, imported keys winning. -/
def importMemory (store imported : Memory) : Memory :=
  imported.foldl (fun m kv => memInsert m kv.1 kv.2) store

/-!
Auxiliary definitions used only to state and prove the properties below:
the immutable attribute view of an element (everything the engine reads but
never writes), a page-level view of the field loop, and concrete fixtures
for the scenario properties.
-/

/-- Every attribute of an element except the two the fill pass writes
(`value` and `files`). -/
def elAttrs (el : Elem) :
    String × String × String × String × String × String × Bool ×
    List (String × String) × Nat × Nat × String × String × Bool :=
  (el.tag, el.etype, el.name, el.id, el.labelText, el.placeholder, el.required,
   el.options, el.width, el.height, el.display, el.visibility, el.hostRejects)

/-- Page effect of one iteration of the field loop, with the memory held
fixed.  When the prompt never supplies an answer the whole pass factors
through this function. -/
def stepPage (ctx : FillCtx) (mem : Memory) (p : List Elem) (idx : Nat) : List Elem :=
  match (fillCore ctx mem (p.getD idx default)).el with
  | some e => p.set idx e
  | none => p

/-- The field loop at the page level, with the memory held fixed. -/
def foldPage (ctx : FillCtx) (mem : Memory) (p : List Elem) (idxs : List Nat) : List Elem :=
  idxs.foldl (stepPage ctx mem) p

/-- Fixture: the experience dropdown of the Option Matcher scenario. -/
def expSelect : Elem :=
  { tag := "select", etype := "select-one", name := "experience", id := "",
    labelText := "Experience", placeholder := "", required := true, value := "init",
    options := [("0-1 years", "0-1 years"), ("1-2 years", "1-2 years"),
                ("2-3 years", "2-3 years")],
    files := "", width := 10, height := 10, display := "block",
    visibility := "visible", hostRejects := false }

/-- Fixture: a select whose second option has empty display text, exposing
the behaviour of the matcher on the empty answer. -/
def gapSelect : Elem :=
  { expSelect with options := [("x", "1"), ("", "2")], value := "0" }

/-- Fixture: the required text field labeled "Phone" of the prompt
scenario. -/
def phoneElem : Elem :=
  { tag := "input", etype := "text", name := "", id := "", labelText := "Phone",
    placeholder := "", required := true, value := "", options := [], files := "",
    width := 5, height := 2, display := "block", visibility := "visible",
    hostRejects := false }

/-- Fixture: environment in which the human answers the "Phone" prompt. -/
def ctxPhoneAnswer : FillCtx :=
  { resume := none, coverLetter := none,
    ask := fun s => if s = "Phone" then some "9998887777" else none }

/-- Fixture: environment in which every prompt is cancelled. -/
def ctxNoPrompt : FillCtx :=
  { resume := none, coverLetter := none, ask := fun _ => none }

/-- Fixture: a text field whose host page rejects programmatic value
assignment. -/
def rejectElem : Elem := { phoneElem with labelText := "first", hostRejects := true }

/-- Fixture: an ordinary text field processed after `rejectElem`. -/
def secondElem : Elem := { phoneElem with labelText := "second" }

/-- Fixture: the memory supplying answers for both fields of the failure
containment counterexample. -/
def memTwoAnswers : Memory := [("first", "x"), ("second", "y")]

/-- Fixture: a required file field whose host page rejects programmatic
file assignment (the rejection is caught by the engine). -/
def fileRejectElem : Elem :=
  { phoneElem with labelText := "Resume", etype := "file", hostRejects := true }

/-- Fixture: environment with a stored resume asset and no prompt
answers. -/
def ctxResume : FillCtx :=
  { resume := some ⟨"r.pdf", "application/pdf", 3⟩, coverLetter := none,
    ask := fun _ => none }

/-- Fixture: a visible enabled submit button. -/
def submitBtn : Btn :=
  { innerText := "Submit application", value := "", visible := true, disabled := false }

/-- Fixture: panel environment that always shows the same unanswered-looking
question, a fillable input, and a save button that never advances. -/
def stuckPanelEnv : PanelEnv :=
  fun _ => (⟨true, ["Are you available?"], ["text"]⟩, true, true)

/-- Fixture: memory holding the answer to the stuck panel's question. -/
def stuckPanelMem : Memory := [("are you available?", "yes")]

/-- An adversarial iteration for the panel loop: the scan finds a sidebar
with at least one question and one empty input, the memory already holds an
answer for the first question, and both the input fill and the save click
report success, so no break is ever taken. -/
def panelGoodIter (env : PanelEnv) (mem : Memory) (n : Nat) : Prop :=
  (env n).1.found = true ∧ (env n).1.questions ≠ [] ∧ (env n).1.inputs ≠ [] ∧
  (memTruthy mem (jsTrim (jsToLower ((env n).1.questions.headD "")))).isSome = true ∧
  (env n).2.1 = true ∧ (env n).2.2 = true

/-!
Basic facts about the memory operations.
-/

theorem memLookup_memInsert_self (m : Memory) (k v : String) :
    memLookup (memInsert m k v) k = some v := by
  induction m with
  | nil => simp [memInsert, memLookup]
  | cons kv rest ih =>
    obtain ⟨k', v'⟩ := kv
    by_cases h : k' = k <;> simp [memInsert, memLookup, h, ih]

theorem memKeys_cons (k v : String) (m : Memory) :
    memKeys ((k, v) :: m) = k :: memKeys m := rfl

theorem memKeys_append (a b : Memory) : memKeys (a ++ b) = memKeys a ++ memKeys b := by
  simp [memKeys]

theorem memLookup_memInsert_ne (m : Memory) (k v q : String) (h : q ≠ k) :
    memLookup (memInsert m k v) q = memLookup m q := by
  induction m with
  | nil => simp [memInsert, memLookup, Ne.symm h]
  | cons kv rest ih =>
    obtain ⟨k', v'⟩ := kv
    by_cases h' : k' = k
    · subst h'
      simp [memInsert, memLookup, Ne.symm h]
    · simp [memInsert, memLookup, h', ih]

theorem memLookup_eq_none_of_notMem (m : Memory) (k : String) (h : k ∉ memKeys m) :
    memLookup m k = none := by
  induction m with
  | nil => rfl
  | cons kv rest ih =>
    obtain ⟨k', v'⟩ := kv
    rw [memKeys_cons, List.mem_cons] at h
    push_neg at h
    simp [memLookup, Ne.symm h.1, ih h.2]

theorem memInsert_of_notMem (m : Memory) (k v : String) (h : k ∉ memKeys m) :
    memInsert m k v = m ++ [(k, v)] := by
  induction m with
  | nil => rfl
  | cons kv rest ih =>
    obtain ⟨k', v'⟩ := kv
    rw [memKeys_cons, List.mem_cons] at h
    push_neg at h
    simp [memInsert, Ne.symm h.1, ih h.2]

theorem importMemory_of_freshKeys (imported : Memory) :
    ∀ acc : Memory, (∀ k ∈ memKeys imported, k ∉ memKeys acc) →
      (memKeys imported).Nodup → importMemory acc imported = acc ++ imported := by
  induction imported with
  | nil => intro acc _ _; simp [importMemory]
  | cons kv rest ih =>
    intro acc hdisj hnd
    obtain ⟨k0, v0⟩ := kv
    rw [memKeys_cons, List.nodup_cons] at hnd
    have hins : memInsert acc k0 v0 = acc ++ [(k0, v0)] :=
      memInsert_of_notMem _ _ _ (hdisj k0 (by rw [memKeys_cons]; exact List.mem_cons_self _ _))
    have hstep : importMemory acc ((k0, v0) :: rest) =
        importMemory (acc ++ [(k0, v0)]) rest := by
      simp [importMemory, hins]
    rw [hstep, ih (acc ++ [(k0, v0)])]
    · simp
    · intro k hk
      rw [memKeys_append, List.mem_append]
      push_neg
      refine ⟨hdisj k (by rw [memKeys_cons]; exact List.mem_cons_of_mem _ hk), ?_⟩
      intro hkk
      have : k = k0 := by simpa [memKeys] using hkk
      exact hnd.1 (this ▸ hk)
    · exact hnd.2

theorem memLookup_importMemory (imported : Memory) :
    ∀ (store : Memory) (k : String), (memKeys imported).Nodup →
      memLookup (importMemory store imported) k =
        match memLookup imported k with
        | some v => some v
        | none => memLookup store k := by
  induction imported with
  | nil => intro store k _; simp [importMemory, memLookup]
  | cons kv rest ih =>
    intro store k hnd
    obtain ⟨k0, v0⟩ := kv
    rw [memKeys_cons, List.nodup_cons] at hnd
    have hstep : importMemory store ((k0, v0) :: rest) =
        importMemory (memInsert store k0 v0) rest := by
      simp [importMemory]
    rw [hstep, ih _ k hnd.2]
    by_cases hk : k0 = k
    · subst hk
      have hr : memLookup rest k0 = none :=
        memLookup_eq_none_of_notMem _ _ hnd.1
      simp [memLookup, hr, memLookup_memInsert_self]
    · simp [memLookup, hk, memLookup_memInsert_ne _ _ _ _ (Ne.symm hk)]

theorem setMany_lookup_notMem (keys : List String) :
    ∀ (mem : Memory) (v k : String), k ∉ keys →
      memLookup (setMany mem keys v) k = memLookup mem k := by
  induction keys with
  | nil => intro mem v k _; rfl
  | cons k0 rest ih =>
    intro mem v k hk
    simp only [List.mem_cons] at hk
    push_neg at hk
    have hstep : setMany mem (k0 :: rest) v = setMany (memInsert mem k0 v) rest v := by
      simp [setMany]
    rw [hstep, ih _ v k hk.2, memLookup_memInsert_ne _ _ _ _ hk.1]

theorem setMany_lookup_mem (keys : List String) :
    ∀ (mem : Memory) (v k : String), k ∈ keys →
      memLookup (setMany mem keys v) k = some v := by
  induction keys with
  | nil => intro mem v k hk; cases hk
  | cons k0 rest ih =>
    intro mem v k hk
    have hstep : setMany mem (k0 :: rest) v = setMany (memInsert mem k0 v) rest v := by
      simp [setMany]
    by_cases hr : k ∈ rest
    · rw [hstep, ih _ v k hr]
    · have hk0 : k = k0 := by
        rcases List.mem_cons.mp hk with h | h
        · exact h
        · exact absurd h hr
      subst hk0
      rw [hstep, setMany_lookup_notMem rest _ v k hr, memLookup_memInsert_self]

/-- Claim C6.  Memory round-trip: importing an exported mapping into an empty
store and re-exporting yields the original mapping, and import into a
non-empty store is a shallow merge in which an imported key overwrites an
existing key of the same name while every other key keeps its value. -/
theorem memory_roundtrip_and_shallow_merge (m store : Memory)
    (hm : (memKeys m).Nodup) :
    exportMemory (importMemory [] m) = m ∧
    (∀ k v, memLookup m k = some v → memLookup (importMemory store m) k = some v) ∧
    (∀ k, memLookup m k = none → memLookup (importMemory store m) k = memLookup store k) := by
  refine ⟨?_, ?_, ?_⟩
  · have h := importMemory_of_freshKeys m [] (by simp [memKeys]) hm
    simpa [exportMemory] using h
  · intro k v hk
    rw [memLookup_importMemory m store k hm, hk]
  · intro k hk
    rw [memLookup_importMemory m store k hm, hk]

/-- Witness for C6 at a concrete mapping and store. -/
theorem memory_roundtrip_witness :
    exportMemory (importMemory [] [("a", "1"), ("b", "2")]) = [("a", "1"), ("b", "2")] ∧
    memLookup (importMemory [("a", "0"), ("c", "3")] [("a", "1"), ("b", "2")]) "a" = some "1" ∧
    memLookup (importMemory [("a", "0"), ("c", "3")] [("a", "1"), ("b", "2")]) "c" = memLookup [("a", "0"), ("c", "3")] "c" := by
  have h := memory_roundtrip_and_shallow_merge [("a", "1"), ("b", "2")]
    [("a", "0"), ("c", "3")] (by decide)
  exact ⟨h.1, h.2.1 "a" "1" (by decide), h.2.2 "c" (by decide)⟩

/-- Claim C7.  File-role fan-out with frame condition: uploading a resume
sets every key of the resume-variant list to the new file name and leaves
every other key's value exactly as it was; the analogous property holds for
the cover-letter role. -/
theorem file_role_fanout (mem : Memory) (file : FileAsset) (k : String) :
    (k ∈ resumeKeys → memLookup (uploadResume mem file).2 k = some file.name) ∧
    (k ∉ resumeKeys → memLookup (uploadResume mem file).2 k = memLookup mem k) ∧
    (k ∈ coverLetterKeys → memLookup (uploadCoverLetter mem file).2 k = some file.name) ∧
    (k ∉ coverLetterKeys → memLookup (uploadCoverLetter mem file).2 k = memLookup mem k) := by
  simp only [uploadResume, uploadCoverLetter]
  refine ⟨?_, ?_, ?_, ?_⟩
  · intro hk; exact setMany_lookup_mem _ _ _ _ hk
  · intro hk; exact setMany_lookup_notMem _ _ _ _ hk
  · intro hk; exact setMany_lookup_mem _ _ _ _ hk
  · intro hk; exact setMany_lookup_notMem _ _ _ _ hk

/-- Witness for C7: a concrete upload updates the variant key "cv" and
leaves the unrelated key "phone" untouched. -/
theorem file_role_fanout_witness :
    memLookup (uploadResume [("phone", "9")] ⟨"r.pdf", "application/pdf", 7⟩).2 "cv" = some "r.pdf" ∧
    memLookup (uploadResume [("phone", "9")] ⟨"r.pdf", "application/pdf", 7⟩).2 "phone" = memLookup [("phone", "9")] "phone" ∧
    memLookup (uploadCoverLetter [("phone", "9")] ⟨"c.pdf", "application/pdf", 7⟩).2 "coverletter" = some "c.pdf" ∧
    memLookup (uploadCoverLetter [("phone", "9")] ⟨"c.pdf", "application/pdf", 7⟩).2 "phone" = memLookup [("phone", "9")] "phone" := by
  have h1 := file_role_fanout [("phone", "9")] ⟨"r.pdf", "application/pdf", 7⟩ "cv"
  have h2 := file_role_fanout [("phone", "9")] ⟨"r.pdf", "application/pdf", 7⟩ "phone"
  have h3 := file_role_fanout [("phone", "9")] ⟨"c.pdf", "application/pdf", 7⟩ "coverletter"
  have h4 := file_role_fanout [("phone", "9")] ⟨"c.pdf", "application/pdf", 7⟩ "phone"
  exact ⟨h1.1 (by simp [resumeKeys]), h2.2.1 (by simp [resumeKeys]),
    h3.2.2.1 (by simp [coverLetterKeys]), h4.2.2.2 (by simp [coverLetterKeys])⟩

/-!
The panel loop: termination and the iteration cap.
-/

theorem sidebarLoop_stuck (env : PanelEnv) (ask : String → Option String)
    (mem : Memory) (h : ∀ n, panelGoodIter env mem n) :
    ∀ fuel iters, sidebarLoop env ask fuel iters mem =
      (.maxAttemptsReached, iters + fuel, mem) := by
  intro fuel
  induction fuel with
  | zero => intro iters; rfl
  | succ fuel ih =>
    intro iters
    obtain ⟨h1, h2, h3, h4, h5, h6⟩ := h iters
    obtain ⟨a, ha⟩ := Option.isSome_iff_exists.mp h4
    rcases hE : env iters with ⟨sd, fillOk, saveOk⟩
    rw [hE] at h1 h2 h3 h5 h6 ha
    simp only at h1 h2 h3 h5 h6 ha
    simp only [sidebarLoop, hE, h1, h5, h6, ha]
    have harith : iters + 1 + fuel = iters + (fuel + 1) := by omega
    simp [List.isEmpty_iff, h2, h3, ih (iters + 1), harith]

theorem sidebarLoop_iters_le (env : PanelEnv) (ask : String → Option String) :
    ∀ (fuel iters : Nat) (mem : Memory),
      (sidebarLoop env ask fuel iters mem).2.1 ≤ iters + fuel := by
  intro fuel
  induction fuel with
  | zero => intro iters mem; simp [sidebarLoop]
  | succ fuel ih =>
    intro iters mem
    rcases hE : env iters with ⟨sd, fillOk, saveOk⟩
    simp only [sidebarLoop, hE]
    repeat' split
    all_goals first
      | (simp only []; omega)
      | exact le_trans (ih (iters + 1) _) (by omega)

/-- Claim C1.  Panel loop termination: on a page whose every iteration
yields a sidebar with a non-empty question whose answer is in memory, a
fillable empty input, and a save button that never advances the underlying
question, `handleNaukriSidebar` performs exactly 20 iterations and then
returns with the `maxAttemptsReached` exit; and on every page whatsoever the
loop performs at most 20 iterations, so it never hangs. -/
theorem panel_loop_termination (env : PanelEnv) (ask : String → Option String)
    (mem : Memory) (h : ∀ n, panelGoodIter env mem n) :
    handleNaukriSidebar env ask mem = (.maxAttemptsReached, 20, mem) ∧
    (∀ (env' : PanelEnv) (ask' : String → Option String) (mem' : Memory),
      (handleNaukriSidebar env' ask' mem').2.1 ≤ 20) := by
  constructor
  · have hs := sidebarLoop_stuck env ask mem h maxAttempts 0
    simpa [handleNaukriSidebar, maxAttempts] using hs
  · intro env' ask' mem'
    have hb := sidebarLoop_iters_le env' ask' maxAttempts 0 mem'
    simpa [handleNaukriSidebar, maxAttempts] using hb

/-- Witness for C1: the concrete stuck panel runs exactly 20 iterations and
reports the cap. -/
theorem panel_loop_termination_witness :
    handleNaukriSidebar stuckPanelEnv (fun _ => none) stuckPanelMem =
      (.maxAttemptsReached, 20, stuckPanelMem) :=
  (panel_loop_termination stuckPanelEnv (fun _ => none) stuckPanelMem
    (fun _ => ⟨rfl, by simp [stuckPanelEnv], by simp [stuckPanelEnv], rfl, rfl, rfl⟩)).1

/-!
The Option Matcher.
-/

theorem charsContain_nil (l : List Char) : charsContain l [] = true := by
  cases l <;> simp [charsContain, List.isPrefixOf]

theorem optSubstr_empty (o : String × String) : optSubstr "" o = true := by
  have h1 : jsToLower "" = "" := rfl
  have h2 : ("" : String).data = ([] : List Char) := rfl
  simp [optSubstr, jsIncludes, h1, h2, charsContain_nil]

theorem find?_first {α : Type} (p : α → Bool) :
    ∀ (l : List α) (b : α), l.find? p = some b →
      ∃ pre post, l = pre ++ b :: post ∧ p b = true ∧ ∀ x ∈ pre, p x = false := by
  intro l
  induction l with
  | nil => intro b h; cases h
  | cons a t ih =>
    intro b h
    by_cases ha : p a = true
    · rw [List.find?_cons_of_pos _ ha] at h
      obtain rfl : a = b := by injection h
      exact ⟨[], t, rfl, ha, by simp⟩
    · rw [List.find?_cons_of_neg _ (by simpa using ha)] at h
      obtain ⟨pre, post, hl, hpb, hpre⟩ := ih b h
      refine ⟨a :: pre, post, by simp [hl], hpb, ?_⟩
      intro x hx
      rcases List.mem_cons.mp hx with rfl | hx
      · simpa using ha
      · exact hpre x hx

theorem selectBestOption_eq (el : Elem) (answer : String) (h : el.hostRejects = false) :
    selectBestOption el answer =
      match findMatchingOption el.options answer with
      | some o => .ok (true, { el with value := o.2 }, ["change"])
      | none => .ok (false, el, []) := by
  cases hfm : findMatchingOption el.options answer <;>
    simp [selectBestOption, hfm, h]

/-- Claim C2.  The Option Matcher applies its rules in order with first
match winning: the case-insensitive exact-match loop runs over the whole
option list before the substring loop; on a match the control's value is set
to the matched option's value and a change notification is emitted with
result `true`; with no match the result is `false` and the control is
unchanged.  For options 0-1/1-2/2-3 years: answer "2-3" selects "2-3 years"
through the substring fallback (no exact match exists), answer "1-2 years"
selects by exact match, and answer "10+" matches nothing and leaves the
control unchanged. -/
theorem option_matcher_rules (el : Elem) (answer : String)
    (hrej : el.hostRejects = false) :
    (∀ o, el.options.find? (optExact answer) = some o →
      selectBestOption el answer = .ok (true, { el with value := o.2 }, ["change"])) ∧
    (el.options.find? (optExact answer) = none →
      ∀ o, el.options.find? (optSubstr answer) = some o →
        selectBestOption el answer = .ok (true, { el with value := o.2 }, ["change"])) ∧
    (el.options.find? (optExact answer) = none →
      el.options.find? (optSubstr answer) = none →
      selectBestOption el answer = .ok (false, el, [])) ∧
    selectBestOption expSelect "2-3" =
      .ok (true, { expSelect with value := "2-3 years" }, ["change"]) ∧
    expSelect.options.find? (optExact "2-3") = none ∧
    selectBestOption expSelect "1-2 years" =
      .ok (true, { expSelect with value := "1-2 years" }, ["change"]) ∧
    expSelect.options.find? (optExact "1-2 years") = some ("1-2 years", "1-2 years") ∧
    selectBestOption expSelect "10+" = .ok (false, expSelect, []) := by
  rw [selectBestOption_eq el answer hrej]
  refine ⟨?_, ?_, ?_, by decide, by decide, by decide, by decide, by decide⟩
  · intro o ho; simp [findMatchingOption, ho]
  · intro hex o ho; simp [findMatchingOption, hex, ho]
  · intro hex ho; simp [findMatchingOption, hex, ho]

/-- Witness for C2 at the concrete dropdown. -/
theorem option_matcher_rules_witness :
    selectBestOption expSelect "1-2 years" =
      .ok (true, { expSelect with value := "1-2 years" }, ["change"]) :=
  (option_matcher_rules expSelect "1-2 years" rfl).1
    ("1-2 years", "1-2 years") (by decide)

/-- Counterexample to C10 as stated: on a select whose second option has
empty display text, the empty answer reports a match but sets the control to
that second option (value "2"), not to the first option (value "1"),
because the exact-match loop hits the empty-texted option first. -/
theorem empty_answer_counterexample :
    selectBestOption gapSelect "" =
      .ok (true, { gapSelect with value := "2" }, ["change"]) ∧
    gapSelect.options.headD ("", "") = ("x", "1") ∧ ("2" : String) ≠ "1" := by
  refine ⟨by decide, by decide, by decide⟩

/-- Claim C10, amended.  For every select with at least one option, the
empty answer always reports a match (so it never leaves a non-empty select
unmatched); it sets the control to the first option whose lower-cased text
is empty if one exists (exact match), and otherwise — in particular whenever
every option has non-empty text — to the first option, via the substring
fallback, because every option text contains the empty string. -/
theorem empty_answer_always_matches (el : Elem) (hrej : el.hostRejects = false)
    (hne : el.options ≠ []) :
    (∃ o ∈ el.options,
      selectBestOption el "" = .ok (true, { el with value := o.2 }, ["change"])) ∧
    ((∀ o ∈ el.options, jsToLower o.1 ≠ "") →
      selectBestOption el "" =
        .ok (true, { el with value := (el.options.headD ("", "")).2 }, ["change"])) := by
  rw [selectBestOption_eq el "" hrej]
  constructor
  · cases hex : el.options.find? (optExact "") with
    | some o =>
      have hmem := List.mem_of_find?_eq_some hex
      exact ⟨o, hmem, by simp [findMatchingOption, hex]⟩
    | none =>
      cases hl : el.options with
      | nil => exact absurd hl hne
      | cons o0 t =>
        have hsub : el.options.find? (optSubstr "") = some o0 := by
          rw [hl, List.find?_cons_of_pos _ (optSubstr_empty o0)]
        rw [hl] at hex hsub
        exact ⟨o0, List.mem_cons_self _ _, by simp [findMatchingOption, hex, hsub]⟩
  · intro hall
    have hex : el.options.find? (optExact "") = none := by
      rw [List.find?_eq_none]
      intro o ho
      have hlw : jsToLower "" = "" := rfl
      simp [optExact, hlw]
      exact hall o ho
    cases hl : el.options with
    | nil => exact absurd hl hne
    | cons o0 t =>
      have hsub : el.options.find? (optSubstr "") = some o0 := by
        rw [hl, List.find?_cons_of_pos _ (optSubstr_empty o0)]
      rw [hl] at hex hsub
      simp [findMatchingOption, hex, hsub, hl]

/-- Witness for the amended C10 at a concrete select. -/
theorem empty_answer_always_matches_witness :
    selectBestOption expSelect "" =
      .ok (true, { expSelect with value := (expSelect.options.headD ("", "")).2 },
        ["change"]) :=
  (empty_answer_always_matches expSelect rfl (by decide)).2 (by decide)

/-!
The submit controller.
-/

/-- Claim C9.  `submitForm` outcome classification: when a visible, enabled
control whose text contains a submit/apply/send token exists, the first such
control is activated and the result is `clicked := true` with
`success` true exactly when the settled page text contains a completion
token (thank/success/submitted/received); the post-submit text "Thank you
for applying" yields success; with no matching control the result is
`{success := false, clicked := false}` and nothing is thrown. -/
theorem submit_outcome_classification (buttons : List Btn) (body : String) :
    (∀ b, buttons.find? isSubmitCandidate = some b →
      submitForm buttons body = (⟨hasCompletionText body, true⟩, some b) ∧
      ∃ pre post, buttons = pre ++ b :: post ∧ isSubmitCandidate b = true ∧
        ∀ x ∈ pre, isSubmitCandidate x = false) ∧
    ((∀ b ∈ buttons, isSubmitCandidate b = false) →
      submitForm buttons body = (⟨false, false⟩, none)) ∧
    hasCompletionText "Thank you for applying" = true ∧
    submitForm [submitBtn] "Thank you for applying" = (⟨true, true⟩, some submitBtn) := by
  refine ⟨?_, ?_, by decide, by decide⟩
  · intro b hb
    exact ⟨by simp [submitForm, hb], find?_first _ _ _ hb⟩
  · intro hnone
    have hfind : buttons.find? isSubmitCandidate = none :=
      List.find?_eq_none.mpr (by intro x hx; simp [hnone x hx])
    simp [submitForm, hfind]

/-- Witness for C9 at a concrete page. -/
theorem submit_outcome_witness :
    submitForm [submitBtn] "Thank you for applying" = (⟨true, true⟩, some submitBtn) ∧
    submitForm ([] : List Btn) "Thank you for applying" = (⟨false, false⟩, none) := by
  have h1 := (submit_outcome_classification [submitBtn] "Thank you for applying").1
    submitBtn (by decide)
  have h2 := (submit_outcome_classification ([] : List Btn) "Thank you for applying").2.1
    (by intro b hb; cases hb)
  exact ⟨h1.1, h2⟩

/-!
Concrete fill-pass scenarios.
-/

/-- Claim C4.  Required-field prompt scenario: with an empty memory and one
required text field labeled "Phone", a human answer "9998887777" produces
`{success := true, filledCount := 1, askedCount := 1, totalFields := 1}`,
the field holds the answer, and the memory maps "phone" to it afterwards; a
cancelled prompt leaves the field unfilled, persists nothing, and the pass
still returns a successful structured result. -/
theorem required_prompt_scenario :
    fillFormWithMemory ctxPhoneAnswer [phoneElem] [] =
      .ok (⟨true, 1, 1, 1⟩, [{ phoneElem with value := "9998887777" }],
        [("phone", "9998887777")]) ∧
    memLookup [("phone", "9998887777")] "phone" = some "9998887777" ∧
    fillFormWithMemory ctxNoPrompt [phoneElem] [] =
      .ok (⟨true, 0, 0, 1⟩, [phoneElem], []) := by
  refine ⟨by decide, by decide, by decide⟩

/-- Counterexample to C5 as stated: a host-rejected mutation during a plain
text fill is not caught anywhere, so the whole pass throws (the promise
rejects) and the subsequent field — whose answer was available in memory —
is never processed. -/
theorem failure_containment_counterexample :
    fillFormWithMemory ctxNoPrompt [rejectElem, secondElem] memTwoAnswers = .error () ∧
    ((runFill ctxNoPrompt [rejectElem, secondElem] memTwoAnswers).page.getD 1
      default).value = "" ∧
    memTruthy memTwoAnswers (fieldQuestion secondElem) = some "y" := by
  refine ⟨by decide, by decide, by decide⟩

/-!
Structural facts about the per-field body `fillCore`: an already-filled
element is skipped untouched, the immutable attributes are never written,
the memory is unchanged when the prompt supplies no answer, and the body
throws only on a host-rejected text/select mutation.
-/

theorem elAttrs_eq_iff (a b : Elem) : elAttrs a = elAttrs b ↔
    (a.tag = b.tag ∧ a.etype = b.etype ∧ a.name = b.name ∧ a.id = b.id ∧
     a.labelText = b.labelText ∧ a.placeholder = b.placeholder ∧
     a.required = b.required ∧ a.options = b.options ∧ a.width = b.width ∧
     a.height = b.height ∧ a.display = b.display ∧ a.visibility = b.visibility ∧
     a.hostRejects = b.hostRejects) := by
  simp [elAttrs, Prod.ext_iff]

theorem selectBestOption_ok_attrs (el : Elem) (a : String) (b : Bool) (e : Elem)
    (ev : List String) (h : selectBestOption el a = .ok (b, e, ev)) :
    elAttrs e = elAttrs el := by
  unfold selectBestOption at h
  split at h
  · split at h
    · exact absurd h (by simp)
    · simp only [Except.ok.injEq, Prod.mk.injEq] at h
      rw [← h.2.1]
      rfl
  · simp only [Except.ok.injEq, Prod.mk.injEq] at h
    rw [← h.2.1]

theorem selectBestOption_ok_true_cases (el : Elem) (a : String) (e : Elem)
    (ev : List String) (h : selectBestOption el a = .ok (true, e, ev)) :
    el.hostRejects = false ∧
    ∃ o, findMatchingOption el.options a = some o ∧ e = { el with value := o.2 } := by
  unfold selectBestOption at h
  split at h
  next o hfm =>
    split at h
    · exact absurd h (by simp)
    next hrej =>
      simp only [Except.ok.injEq, Prod.mk.injEq] at h
      exact ⟨by simpa using hrej, o, hfm, h.2.1.symm⟩
  next hfm =>
    simp only [Except.ok.injEq, Prod.mk.injEq] at h
    exact absurd h.1.symm (by simp)

theorem selectBestOption_ok_false_cases (el : Elem) (a : String) (e : Elem)
    (ev : List String) (h : selectBestOption el a = .ok (false, e, ev)) :
    e = el ∧ findMatchingOption el.options a = none := by
  unfold selectBestOption at h
  split at h
  next o hfm =>
    split at h
    · exact absurd h (by simp)
    · simp only [Except.ok.injEq, Prod.mk.injEq] at h
      exact absurd h.1 (by simp)
  next hfm =>
    simp only [Except.ok.injEq, Prod.mk.injEq] at h
    exact ⟨h.2.1.symm, hfm⟩

theorem fillCore_skip (ctx : FillCtx) (mem : Memory) (el : Elem)
    (h : el.value ≠ "") : fillCore ctx mem el = ⟨none, mem, 0, 0, false⟩ := by
  unfold fillCore
  rw [if_pos (by simpa using h)]

theorem fillCore_memory (ctx : FillCtx) (mem : Memory) (el : Elem)
    (hask : ∀ s, ctx.ask s = none) : (fillCore ctx mem el).memory = mem := by
  unfold fillCore
  rw [hask (promptLabel el)]
  simp only [strTruthy]
  repeat' split
  all_goals rfl

theorem fillCore_threw (ctx : FillCtx) (mem : Memory) (el : Elem)
    (h : el.etype = "file" ∨ el.hostRejects = false) :
    (fillCore ctx mem el).threw = false := by
  rcases h with hf | hr
  · unfold fillCore
    repeat' split
    all_goals simp_all
    all_goals repeat' split
    all_goals rfl
  · have hsel : ∀ (a : String) (e : Unit), ¬selectBestOption el a = .error e := by
      intro a e
      rw [selectBestOption_eq el a hr]
      split <;> simp
    unfold fillCore
    repeat' split
    all_goals first
      | rfl
      | exact absurd (by assumption) (hsel _ _)
      | simp_all
    all_goals repeat' split
    all_goals first
      | rfl
      | exact absurd (by assumption) (hsel _ _)

theorem fillCore_el_attrs (ctx : FillCtx) (mem : Memory) (el e : Elem)
    (h : (fillCore ctx mem el).el = some e) : elAttrs e = elAttrs el := by
  unfold fillCore at h
  try dsimp only at h
  repeat' split at h
  all_goals solve
    | simp_all
    | (simp only [Option.some.injEq] at h
       rw [← h]
       first
         | rfl
         | exact selectBestOption_ok_attrs _ _ _ _ _ (by assumption))

/-!
Page-level facts about one iteration of the field loop and about the whole
fold: list update helpers, the shape of the page after one step, and the
preservation of immutable attributes.
-/

theorem getD_set_ne {α : Type} [Inhabited α] (l : List α) (i j : Nat) (e : α)
    (h : i ≠ j) : (l.set i e).getD j default = l.getD j default := by
  rw [List.getD_eq_getElem?_getD, List.getD_eq_getElem?_getD, List.getElem?_set_ne h]

theorem getD_set_self_lt {α : Type} [Inhabited α] (l : List α) (i : Nat) (e : α)
    (h : i < l.length) : (l.set i e).getD i default = e := by
  rw [List.getD_eq_getElem?_getD, List.getElem?_set_self h]
  rfl

theorem set_getD_self {α : Type} [Inhabited α] (l : List α) (i : Nat) :
    l.set i (l.getD i default) = l := by
  induction l generalizing i with
  | nil => rfl
  | cons a t ih =>
    cases i with
    | zero => rfl
    | succ n =>
      show a :: t.set n (t.getD n default) = a :: t
      rw [ih]

theorem fillStepAt_page_cases (ctx : FillCtx) (st : FillState) (idx : Nat) :
    (fillStepAt ctx st idx).page = st.page ∨
    ∃ e, (fillStepAt ctx st idx).page = st.page.set idx e ∧
      elAttrs e = elAttrs (st.page.getD idx default) ∧
      (st.page.getD idx default).value = "" := by
  unfold fillStepAt
  split
  · exact Or.inl rfl
  · cases hout : (fillCore ctx st.memory (st.page.getD idx default)).el with
    | none => exact Or.inl (by simp only [hout])
    | some e =>
      refine Or.inr ⟨e, by simp only [hout], fillCore_el_attrs _ _ _ _ hout, ?_⟩
      by_contra hv
      rw [fillCore_skip _ _ _ hv] at hout
      simp at hout

theorem fillStepAt_preserves_filled (ctx : FillCtx) (st : FillState) (j i : Nat)
    (h : (st.page.getD i default).value ≠ "") :
    (fillStepAt ctx st j).page.getD i default = st.page.getD i default := by
  rcases fillStepAt_page_cases ctx st j with hp | ⟨e, hp, hattr, hv⟩
  · rw [hp]
  · rw [hp]
    by_cases hij : j = i
    · subst hij; exact absurd hv h
    · exact getD_set_ne _ _ _ _ hij

theorem foldl_fillStep_preserves_filled (ctx : FillCtx) (idxs : List Nat) :
    ∀ (st : FillState) (i : Nat), (st.page.getD i default).value ≠ "" →
      (idxs.foldl (fillStepAt ctx) st).page.getD i default = st.page.getD i default := by
  induction idxs with
  | nil => intro st i _; rfl
  | cons j t ih =>
    intro st i h
    rw [List.foldl_cons]
    have hstep := fillStepAt_preserves_filled ctx st j i h
    rw [ih (fillStepAt ctx st j) i (by rw [hstep]; exact h), hstep]

/-- Claim C3.  No-overwrite invariant: a field whose value is non-empty when
the standard fill pass begins still holds exactly that value when the pass
ends — the engine never mutates an already-filled field. -/
theorem no_overwrite (ctx : FillCtx) (page : List Elem) (mem : Memory) (i : Nat)
    (h : (page.getD i default).value ≠ "") :
    ((runFill ctx page mem).page.getD i default).value =
      (page.getD i default).value := by
  unfold runFill
  rw [foldl_fillStep_preserves_filled ctx (findAllFields page) (initState page mem) i h]
  rfl

/-- Witness for C3: a pre-filled "Phone" field keeps its value even though
the memory holds a different answer for it. -/
theorem no_overwrite_witness :
    ((runFill ctxNoPrompt [{ phoneElem with value := "keep" }]
      [("phone", "x")]).page.getD 0 default).value =
      ({ phoneElem with value := "keep" } : Elem).value :=
  no_overwrite ctxNoPrompt [{ phoneElem with value := "keep" }] [("phone", "x")] 0
    (by decide)

theorem fillStepAt_attrs (ctx : FillCtx) (st : FillState) (j i : Nat) :
    elAttrs ((fillStepAt ctx st j).page.getD i default) =
      elAttrs (st.page.getD i default) := by
  rcases fillStepAt_page_cases ctx st j with hp | ⟨e, hp, hattr, hv⟩
  · rw [hp]
  · rw [hp]
    by_cases hij : j = i
    · subst hij
      by_cases hlen : j < st.page.length
      · rw [getD_set_self_lt _ _ _ hlen]; exact hattr
      · rw [List.set_eq_of_length_le (by omega)]
    · rw [getD_set_ne _ _ _ _ hij]

theorem fillStepAt_threw (ctx : FillCtx) (st : FillState) (j : Nat)
    (ht : st.threw = false)
    (h : (st.page.getD j default).etype = "file" ∨
      (st.page.getD j default).hostRejects = false) :
    (fillStepAt ctx st j).threw = false := by
  unfold fillStepAt
  rw [if_neg (by simp [ht])]
  exact fillCore_threw _ _ _ h

theorem foldl_fillStep_threw (ctx : FillCtx) (idxs : List Nat) :
    ∀ st : FillState, st.threw = false →
      (∀ i, (st.page.getD i default).etype ≠ "file" →
        (st.page.getD i default).hostRejects = false) →
      (idxs.foldl (fillStepAt ctx) st).threw = false := by
  induction idxs with
  | nil => intro st ht _; exact ht
  | cons j t ih =>
    intro st ht hh
    rw [List.foldl_cons]
    have ht' : (fillStepAt ctx st j).threw = false := by
      apply fillStepAt_threw ctx st j ht
      by_cases hf : (st.page.getD j default).etype = "file"
      · exact Or.inl hf
      · exact Or.inr (hh j hf)
    apply ih _ ht'
    intro i hi
    have hattr := fillStepAt_attrs ctx st j i
    rw [elAttrs_eq_iff] at hattr
    obtain ⟨-, he, -, -, -, -, -, -, -, -, -, -, hr⟩ := hattr
    rw [hr]
    exact hh i (fun hf => hi (he.trans hf))

/-- Claim C5, amended.  Failure containment holds for the file branch only:
when every discovered non-file field accepts programmatic mutation, the pass
never throws — in particular host-rejected file attaches are caught and do
not abort it — and `fillFormWithMemory` returns the structured result; but
(per the counterexample) a host-rejected text or select mutation is not
caught and aborts the pass. -/
theorem file_failure_containment (ctx : FillCtx) (page : List Elem) (mem : Memory)
    (h : ∀ i, (page.getD i default).etype ≠ "file" →
      (page.getD i default).hostRejects = false) :
    (runFill ctx page mem).threw = false ∧
    fillFormWithMemory ctx page mem =
      .ok (⟨true, (runFill ctx page mem).filledCount,
        (runFill ctx page mem).askedCount, (findAllFields page).length⟩,
        (runFill ctx page mem).page, (runFill ctx page mem).memory) := by
  have ht : (runFill ctx page mem).threw = false :=
    foldl_fillStep_threw ctx (findAllFields page) (initState page mem) rfl h
  refine ⟨ht, ?_⟩
  unfold fillFormWithMemory
  rw [if_neg (by simp [ht])]

/-- Witness for the amended C5: a page whose file field rejects the
synthetic upload still completes the pass without throwing. -/
theorem file_failure_containment_witness :
    (runFill ctxResume [fileRejectElem, secondElem] memTwoAnswers).threw = false :=
  (file_failure_containment ctxResume [fileRejectElem, secondElem] memTwoAnswers
    (by
      intro i hne
      match i with
      | 0 => exact absurd rfl hne
      | 1 => rfl
      | (n + 2) => rfl)).1

/-!
Idempotence of the fill pass.  When the human supplies no fresh answer, the
memory never changes, the whole pass factors through the pure page transform
`foldPage`, and re-processing an element the pass has already processed is a
no-op — so a second pass leaves the page exactly as the first left it.
-/

theorem memTruthy_ne_empty (m : Memory) (k v : String)
    (h : memTruthy m k = some v) : v ≠ "" := by
  unfold memTruthy at h
  split at h
  · split at h <;> simp_all
  · simp at h

theorem memTruthy_eq_some_empty_iff (m : Memory) (k : String) :
    (memTruthy m k = some "") ↔ False := by
  constructor
  · intro h
    exact memTruthy_ne_empty m k "" h rfl
  · exact False.elim

theorem fieldQuestion_update_value (el : Elem) (v : String) :
    fieldQuestion { el with value := v } = fieldQuestion el := rfl

theorem fillCore_idem (ctx : FillCtx) (mem : Memory) (el e : Elem)
    (hask : ∀ s, ctx.ask s = none) (hrej : el.hostRejects = false)
    (h : (fillCore ctx mem el).el = some e) :
    (fillCore ctx mem e).el = none ∨ (fillCore ctx mem e).el = some e := by
  by_cases hev : e.value = ""
  case neg =>
    exact Or.inl (by rw [fillCore_skip _ _ _ hev])
  case pos =>
    right
    unfold fillCore at h
    rw [hask (promptLabel el)] at h
    simp only [strTruthy] at h
    try dsimp only at h
    repeat' split at h
    all_goals simp only [Option.some.injEq] at h
    all_goals try (exact absurd h (by simp))
    · subst h
      simp_all [fillCore, fieldQuestion]
    · subst h
      simp_all [fillCore, fieldQuestion]
    · subst h
      simp_all [memTruthy_eq_some_empty_iff]
    · subst h
      simp_all [memTruthy_eq_some_empty_iff]
    · rename_i hval hq hfile xR hR xC hC xM s hM htag x matched el' snd heqSel hmatched
      subst hmatched
      obtain ⟨-, o, hfmo, rfl⟩ := selectBestOption_ok_true_cases _ _ _ _ heqSel
      subst h
      have hov : o.2 = "" := hev
      simp_all [fillCore, selectBestOption, fieldQuestion]
    · subst h
      simp_all [memTruthy_eq_some_empty_iff]

theorem foldPage_cons (ctx : FillCtx) (mem : Memory) (p : List Elem) (j : Nat)
    (t : List Nat) :
    foldPage ctx mem p (j :: t) = foldPage ctx mem (stepPage ctx mem p j) t := rfl

theorem stepPage_of_el_none (ctx : FillCtx) (mem : Memory) (p : List Elem) (j : Nat)
    (h : (fillCore ctx mem (p.getD j default)).el = none) :
    stepPage ctx mem p j = p := by
  unfold stepPage
  simp only [h]

theorem stepPage_of_el_some (ctx : FillCtx) (mem : Memory) (p : List Elem) (j : Nat)
    (e : Elem) (h : (fillCore ctx mem (p.getD j default)).el = some e) :
    stepPage ctx mem p j = p.set j e := by
  unfold stepPage
  simp only [h]

theorem stepPage_length (ctx : FillCtx) (mem : Memory) (p : List Elem) (j : Nat) :
    (stepPage ctx mem p j).length = p.length := by
  unfold stepPage
  cases hout : (fillCore ctx mem (p.getD j default)).el <;> simp [hout]

theorem stepPage_attrs (ctx : FillCtx) (mem : Memory) (p : List Elem) (j i : Nat) :
    elAttrs ((stepPage ctx mem p j).getD i default) = elAttrs (p.getD i default) := by
  unfold stepPage
  cases hout : (fillCore ctx mem (p.getD j default)).el with
  | none => simp only [hout]
  | some e =>
    simp only [hout]
    by_cases hij : j = i
    · subst hij
      by_cases hlen : j < p.length
      · rw [getD_set_self_lt _ _ _ hlen]
        exact fillCore_el_attrs _ _ _ _ hout
      · rw [List.set_eq_of_length_le (by omega)]
    · rw [getD_set_ne _ _ _ _ hij]

theorem stepPage_getD_ne (ctx : FillCtx) (mem : Memory) (p : List Elem) (j i : Nat)
    (hij : j ≠ i) : (stepPage ctx mem p j).getD i default = p.getD i default := by
  unfold stepPage
  cases hout : (fillCore ctx mem (p.getD j default)).el with
  | none => simp only [hout]
  | some e =>
    simp only [hout]
    exact getD_set_ne _ _ _ _ hij

theorem foldPage_length (ctx : FillCtx) (mem : Memory) (idxs : List Nat) :
    ∀ p : List Elem, (foldPage ctx mem p idxs).length = p.length := by
  induction idxs with
  | nil => intro p; rfl
  | cons j t ih =>
    intro p
    rw [foldPage_cons, ih, stepPage_length]

theorem foldPage_attrs (ctx : FillCtx) (mem : Memory) (idxs : List Nat) :
    ∀ (p : List Elem) (i : Nat),
      elAttrs ((foldPage ctx mem p idxs).getD i default) =
        elAttrs (p.getD i default) := by
  induction idxs with
  | nil => intro p i; rfl
  | cons j t ih =>
    intro p i
    rw [foldPage_cons, ih, stepPage_attrs]

theorem foldPage_getD_of_notMem (ctx : FillCtx) (mem : Memory) (idxs : List Nat) :
    ∀ (p : List Elem) (i : Nat), i ∉ idxs →
      (foldPage ctx mem p idxs).getD i default = p.getD i default := by
  induction idxs with
  | nil => intro p i _; rfl
  | cons j t ih =>
    intro p i hi
    rw [List.mem_cons] at hi
    push_neg at hi
    rw [foldPage_cons, ih _ _ hi.2, stepPage_getD_ne _ _ _ _ _ (fun h => hi.1 h.symm)]

theorem findAllFields_eq_of_attrs (p q : List Elem) (hlen : q.length = p.length)
    (hattr : ∀ i, elAttrs (q.getD i default) = elAttrs (p.getD i default)) :
    findAllFields q = findAllFields p := by
  unfold findAllFields
  rw [hlen]
  apply List.filter_congr
  intro i _
  have h := hattr i
  rw [elAttrs_eq_iff] at h
  obtain ⟨-, he, -, -, -, -, -, -, hw, hh, hd, hv, -⟩ := h
  simp only [isDiscoverable]
  rw [he, hw, hh, hd, hv]

theorem findAllFields_pairwise_ne (page : List Elem) :
    (findAllFields page).Pairwise (· ≠ ·) :=
  (List.Pairwise.sublist (List.filter_sublist _)
    (List.pairwise_lt_range _)).imp Nat.ne_of_lt

theorem findAllFields_lt (page : List Elem) :
    ∀ i ∈ findAllFields page, i < page.length := by
  intro i hi
  unfold findAllFields at hi
  exact List.mem_range.mp (List.mem_filter.mp hi).1

theorem runFill_factor (ctx : FillCtx) (idxs : List Nat) :
    ∀ st : FillState, (∀ s, ctx.ask s = none) → st.threw = false →
      (∀ i, (st.page.getD i default).hostRejects = false) →
      (idxs.foldl (fillStepAt ctx) st).page = foldPage ctx st.memory st.page idxs ∧
      (idxs.foldl (fillStepAt ctx) st).memory = st.memory := by
  induction idxs with
  | nil => intro st _ _ _; exact ⟨rfl, rfl⟩
  | cons j t ih =>
    intro st hask ht hrej
    have hm : (fillStepAt ctx st j).memory = st.memory := by
      unfold fillStepAt
      rw [if_neg (by simp [ht])]
      exact fillCore_memory _ _ _ hask
    have hp : (fillStepAt ctx st j).page = stepPage ctx st.memory st.page j := by
      unfold fillStepAt stepPage
      rw [if_neg (by simp [ht])]
    have ht' : (fillStepAt ctx st j).threw = false :=
      fillStepAt_threw ctx st j ht (Or.inr (hrej j))
    have hrej' : ∀ i, ((fillStepAt ctx st j).page.getD i default).hostRejects = false := by
      intro i
      have hattr := fillStepAt_attrs ctx st j i
      rw [elAttrs_eq_iff] at hattr
      obtain ⟨-, -, -, -, -, -, -, -, -, -, -, -, hr⟩ := hattr
      rw [hr]
      exact hrej i
    obtain ⟨hP, hM⟩ := ih (fillStepAt ctx st j) hask ht' hrej'
    rw [List.foldl_cons] at *
    constructor
    · rw [hP, hm, hp, foldPage_cons]
    · rw [hM, hm]

theorem foldPage_idem (ctx : FillCtx) (mem : Memory) (hask : ∀ s, ctx.ask s = none) :
    ∀ (idxs : List Nat) (p : List Elem), idxs.Pairwise (· ≠ ·) →
      (∀ i ∈ idxs, i < p.length) →
      (∀ i, (p.getD i default).hostRejects = false) →
      foldPage ctx mem (foldPage ctx mem p idxs) idxs = foldPage ctx mem p idxs := by
  intro idxs
  induction idxs with
  | nil => intro p _ _ _; rfl
  | cons j t ih =>
    intro p hnd hlt hrej
    rw [List.pairwise_cons] at hnd
    obtain ⟨hjt, hndT⟩ := hnd
    rw [foldPage_cons ctx mem p j t, foldPage_cons]
    have hnotin : j ∉ t := fun hmem => (hjt j hmem) rfl
    have hPj : (foldPage ctx mem (stepPage ctx mem p j) t).getD j default
        = (stepPage ctx mem p j).getD j default :=
      foldPage_getD_of_notMem ctx mem t _ j hnotin
    have hA : stepPage ctx mem (foldPage ctx mem (stepPage ctx mem p j) t) j
        = foldPage ctx mem (stepPage ctx mem p j) t := by
      cases hout : (fillCore ctx mem (p.getD j default)).el with
      | none =>
        have hsp : stepPage ctx mem p j = p := stepPage_of_el_none ctx mem p j hout
        rw [hsp] at hPj ⊢
        apply stepPage_of_el_none
        rw [hPj]
        exact hout
      | some e =>
        have hj : j < p.length := hlt j (List.mem_cons_self _ _)
        have hspj : (stepPage ctx mem p j).getD j default = e := by
          rw [stepPage_of_el_some ctx mem p j e hout]
          exact getD_set_self_lt _ _ _ hj
        have hPje : (foldPage ctx mem (stepPage ctx mem p j) t).getD j default = e := by
          rw [hPj, hspj]
        rcases fillCore_idem ctx mem (p.getD j default) e hask (hrej j) hout with h2 | h2
        · apply stepPage_of_el_none
          rw [hPje]
          exact h2
        · have hsome : (fillCore ctx mem
              ((foldPage ctx mem (stepPage ctx mem p j) t).getD j default)).el = some e := by
            rw [hPje]
            exact h2
          rw [stepPage_of_el_some ctx mem _ j e hsome, ← hPje]
          exact set_getD_self _ _
    rw [hA]
    apply ih (stepPage ctx mem p j) hndT
    · intro i hi
      rw [stepPage_length]
      exact hlt i (List.mem_cons_of_mem _ hi)
    · intro i
      have h := stepPage_attrs ctx mem p j i
      rw [elAttrs_eq_iff] at h
      obtain ⟨-, -, -, -, -, -, -, -, -, -, -, -, hr⟩ := h
      rw [hr]
      exact hrej i

/-- Claim C8.  Idempotence of the standard fill pass: on an unchanged page,
with no new answers supplied between or during the runs (every prompt is
cancelled) and with the page accepting programmatic mutation, running
`fillFormWithMemory` a second time — from the page and memory the first run
left — changes nothing: the page after the second run is identical to the
page after the first run. -/
theorem fill_idempotent (ctx : FillCtx) (page : List Elem) (mem : Memory)
    (hask : ∀ s, ctx.ask s = none)
    (hrej : ∀ i, (page.getD i default).hostRejects = false) :
    (runFill ctx (runFill ctx page mem).page (runFill ctx page mem).memory).page =
      (runFill ctx page mem).page := by
  obtain ⟨hP1, hM1⟩ :=
    runFill_factor ctx (findAllFields page) (initState page mem) hask rfl hrej
  have hP1' : (runFill ctx page mem).page = foldPage ctx mem page (findAllFields page) := hP1
  have hM1' : (runFill ctx page mem).memory = mem := hM1
  rw [hP1', hM1']
  have hlen := foldPage_length ctx mem (findAllFields page) page
  have hattr := foldPage_attrs ctx mem (findAllFields page) page
  have hidx2 : findAllFields (foldPage ctx mem page (findAllFields page)) =
      findAllFields page :=
    findAllFields_eq_of_attrs page _ hlen (fun i => hattr i)
  have hrej2 : ∀ i,
      ((foldPage ctx mem page (findAllFields page)).getD i default).hostRejects = false := by
    intro i
    have h := hattr i
    rw [elAttrs_eq_iff] at h
    obtain ⟨-, -, -, -, -, -, -, -, -, -, -, -, hr⟩ := h
    rw [hr]
    exact hrej i
  obtain ⟨hP2, -⟩ := runFill_factor ctx (findAllFields page)
    (initState (foldPage ctx mem page (findAllFields page)) mem) hask rfl hrej2
  have hrun2 : runFill ctx (foldPage ctx mem page (findAllFields page)) mem =
      (findAllFields page).foldl (fillStepAt ctx)
        (initState (foldPage ctx mem page (findAllFields page)) mem) := by
    unfold runFill
    rw [hidx2]
  rw [hrun2, hP2]
  exact foldPage_idem ctx mem hask (findAllFields page) page
    (findAllFields_pairwise_ne page) (findAllFields_lt page) hrej

/-- Witness for C8: a second pass over the page the first pass filled from
memory changes nothing. -/
theorem fill_idempotent_witness :
    (runFill ctxNoPrompt (runFill ctxNoPrompt [phoneElem] [("phone", "9")]).page
      (runFill ctxNoPrompt [phoneElem] [("phone", "9")]).memory).page =
      (runFill ctxNoPrompt [phoneElem] [("phone", "9")]).page :=
  fill_idempotent ctxNoPrompt [phoneElem] [("phone", "9")] (fun _ => rfl)
    (fun i => by
      match i with
      | 0 => rfl
      | (n + 1) => rfl)

end NaukriAuto
